import Mathlib

set_option maxHeartbeats 1000000
set_option maxRecDepth 4000

/-!
Shallow embedding of `tools/restore_dos.py`, an MSDOS 2.x BACKUP image
restorer.  Bytes of a record are modelled as `List Nat`; Python runtime
exceptions (failed `assert`, `IndexError`, and the call to the undefined
`error` routine inside `got_all_slices`) are modelled with `Except String`.
Console diagnostics that the claims observe (the writer's content-changed
message) are kept in the `Restore` state; `verbose` printing, `os.makedirs`
and the actual file I/O are external effects and the write of each output
file is recorded in the `writes` log instead.  The fields `root`, `sets`
and `verbose` of the Python `Restore` object do not influence assembly and
are omitted.
-/

/-- Error message used to model a Python `IndexError`. -/
def msgIndexError : String := "IndexError"

/-- Error message used to model a failed Python `assert`. -/
def msgAssertionError : String := "AssertionError"

/-- Message modelling the crash inside `got_all_slices`: the code calls an
undefined function `error` (and evaluates a `join` over `BackupFile`
objects), so Python raises instead of logging. -/
def msgNameError : String := "NameError: error is not defined"

/-- Prefix of the diagnostic in `BackupID.__init__`. -/
def msgNonzeroAt : String := "unexpected non-zero at "

/-- Separator of the diagnostic in `BackupID.__init__`. -/
def msgColonSp : String := ": "

/-- Prefix of the bad path length diagnostic in `BackupFile.__init__`. -/
def msgPathLen : String := "unexpected file path len: "

/-- Middle part of the bad flag diagnostic in `BackupFile.__init__`. -/
def msgFlagVal : String := ": unexpected flag value 0x"

/-- The writer's diagnostic in `Restore.write_slices`. -/
def msgContentChanged : String := "content changed on: "

/-- Sentinel path substituted on a bad path length. -/
def badFileStr : String := "bad_file"

/-- `loadshort(blob, at)`: little-endian 16-bit load, `blob[at+1] << 8 | blob[at]`. -/
def loadshort (blob : List Nat) (i : Nat) : Nat :=
  (blob.getD (i + 1) 0) <<< 8 ||| blob.getD i 0

/-- Lowercase hex digit, as produced by Python `%x`. -/
def hexDigit (n : Nat) : Char :=
  if n < 10 then Char.ofNat (48 + n) else Char.ofNat (87 + n)

/-- Two-digit lowercase hex of a byte, as produced by Python `%02x`. -/
def hex2 (b : Nat) : String :=
  String.mk [hexDigit (b / 16 % 16), hexDigit (b % 16)]

/-- The inner `decode(b)` helper of `BackupFile.__init__`: a byte is kept
verbatim iff `chr(b)` is ASCII and `b >= ord(' ')`; otherwise it becomes
a percent escape with two lowercase hex digits. -/
def decodeByte (b : Nat) : String :=
  if b < 0x80 ∧ 0x20 ≤ b then String.mk [Char.ofNat b]
  else String.mk ['%', hexDigit (b / 16 % 16), hexDigit (b % 16)]

/-- Python `''.join` over a list of strings. -/
def joinAll : List String → String
  | [] => ""
  | s :: rest => s ++ joinAll rest

/-- `VolumeHeader` of the spec: decoded `BACKUPID.@@@` record (class `BackupID`). -/
structure BackupID where
  errors : List String
  path : String
  last : Bool
  sequence : Nat
  year : Nat
  day : Nat
  month : Nat
deriving DecidableEq, Repr

/-- Warnings collected by the reserved-byte loop of `BackupID.__init__`
(`for i in range(7, len(data)): if data[i] != 0: ...`). -/
def reservedErrors (data : List Nat) : List String :=
  (List.range (data.length - 7)).filterMap (fun k =>
    if data.getD (7 + k) 0 ≠ 0 then
      some (msgNonzeroAt ++ toString (7 + k) ++ msgColonSp ++ toString (data.getD (7 + k) 0))
    else none)

/-- `BackupID.__init__` on the raw record bytes.  The flag check is a Python
`assert`, modelled as a fatal `Except.error`; reads past the end of the
data are an `IndexError`. -/
def decodeBackupID (path : String) (data : List Nat) : Except String BackupID :=
  match data.get? 0 with
  | none => .error msgIndexError
  | some md_flag =>
    if md_flag = 0x00 ∨ md_flag = 0xff then
      if data.length < 7 then .error msgIndexError
      else .ok {
        errors := reservedErrors data,
        path := path,
        last := md_flag == 0xff,
        sequence := loadshort data 1,
        year := loadshort data 3,
        day := data.getD 5 0,
        month := data.getD 6 0 }
    else .error msgAssertionError

/-- `Fragment` of the spec: decoded per-file record (class `BackupFile`). -/
structure BackupFile where
  errors : List String
  image_path : String
  last : Bool
  sequence : Nat
  unknown : Nat
  path : String
  content : List Nat
deriving DecidableEq, Repr

/-- Raw path slice `data[5:5+path_len]` with the trailing NUL dropped when
present (`if raw_path[-1] == 0: raw_path = raw_path[0:-1]`). -/
def trimmedRaw (data : List Nat) : List Nat :=
  if ((data.drop 5).take (data.getD 0x53 0)).getLastD 1 = 0
  then ((data.drop 5).take (data.getD 0x53 0)).dropLast
  else (data.drop 5).take (data.getD 0x53 0)

/-- The `self.path` computation of `BackupFile.__init__`: the sentinel on a
bad path length; otherwise strict ASCII decode of the trimmed raw bytes
when every byte is ASCII, and the byte-by-byte escape fallback when the
strict decode would raise `UnicodeDecodeError`. -/
def decodedPath (data : List Nat) : String :=
  if data.getD 0x53 0 = 0 ∨ 78 < data.getD 0x53 0 then badFileStr
  else if (trimmedRaw data).all (fun b => decide (b < 0x80)) then
    String.mk ((trimmedRaw data).map Char.ofNat)
  else joinAll ((trimmedRaw data).map decodeByte)

/-- The `self.errors` list of `BackupFile.__init__`: a bad-path-length
warning appended first, an out-of-range flag warning appended last. -/
def decodedErrors (data : List Nat) : List String :=
  (if data.getD 0x53 0 = 0 ∨ 78 < data.getD 0x53 0
   then [msgPathLen ++ toString (data.getD 0x53 0)] else [])
  ++ (if data.getD 0 0 ≠ 0x00 ∧ data.getD 0 0 ≠ 0xff
      then [decodedPath data ++ msgFlagVal ++ hex2 (data.getD 0 0)] else [])

/-- `BackupFile.__init__` on the raw record bytes.  A record too short for
the `data[0x53]` read is an `IndexError`; everything else decodes, possibly
collecting warnings in `errors` exactly as the Python code appends them. -/
def decodeBackupFile (path : String) (data : List Nat) : Except String BackupFile :=
  if data.length < 0x54 then .error msgIndexError
  else .ok {
    errors := decodedErrors data,
    image_path := path,
    last := data.getD 0 0 == 0xff,
    sequence := loadshort data 1,
    unknown := loadshort data 3,
    path := decodedPath data,
    content := data.drop 0x80 }

/-- The `is_complete` property of `BackupFile`. -/
def BackupFile.is_complete (f : BackupFile) : Bool :=
  f.last && (f.sequence == 1)

/-- Ordering key of `sorted(slices, key=lambda x: x.sequence)`. -/
def seqLE (a b : BackupFile) : Prop := a.sequence ≤ b.sequence

/-- Strict version of the sort key, used to state uniqueness of sorted orders. -/
def seqLT (a b : BackupFile) : Prop := a.sequence < b.sequence

instance : DecidableRel seqLE := fun a b => inferInstanceAs (Decidable (a.sequence ≤ b.sequence))

instance : DecidableRel seqLT := fun a b => inferInstanceAs (Decidable (a.sequence < b.sequence))

instance : IsTotal BackupFile seqLE := ⟨fun a b => Nat.le_total a.sequence b.sequence⟩

instance : IsTrans BackupFile seqLE := ⟨fun _ _ _ h1 h2 => Nat.le_trans h1 h2⟩

instance : IsAntisymm BackupFile seqLT := ⟨fun _ _ h1 h2 => absurd h1 (Nat.lt_asymm h2)⟩

/-- `sorted(slices, key=lambda x: x.sequence)` — a stable sort on the
sequence number. -/
def sortBySeq (slices : List BackupFile) : List BackupFile :=
  List.insertionSort seqLE slices

/-- The `for i, s_i in enumerate(s)` loop of `Restore.got_all_slices`,
carried out on the already sorted list.  `n` is `len(s)`, `i` the current
index.  `.ok (some false)` models the early `return False`; `.ok none`
means the loop fell through; the `error(...)` call on a misplaced `last`
flag is an unhandled Python exception, modelled as `.error`. -/
def gasLoop (n : Nat) : Nat → List BackupFile → Except String (Option Bool)
  | _, [] => .ok none
  | i, f :: rest =>
    if i + 1 ≠ f.sequence then .ok (some false)
    else if f.last && decide (i ≠ n - 1) then .error msgNameError
    else gasLoop n (i + 1) rest

/-- `Restore.got_all_slices(slices)`: sort by sequence, scan for
contiguity `1..N`, crash on a `last` flag before the final element, and
otherwise return the `last` flag of the final sorted element. -/
def gotAllSlices (slices : List BackupFile) : Except String Bool :=
  let s := sortBySeq slices
  match gasLoop s.length 0 s with
  | .error e => .error e
  | .ok (some b) => .ok b
  | .ok none =>
    match s.getLast? with
    | none => .error msgIndexError
    | some g => .ok g.last

/-- Association list lookup (Python `dict.get`). -/
def lookupA {α : Type} (k : String) : List (String × α) → Option α
  | [] => none
  | (k2, v) :: rest => if k2 = k then some v else lookupA k rest

/-- Association list insertion/replacement (Python `dict.__setitem__`,
which keeps the position of an existing key). -/
def insertA {α : Type} (k : String) (v : α) : List (String × α) → List (String × α)
  | [] => [(k, v)]
  | (k2, v2) :: rest => if k2 = k then (k2, v) :: rest else (k2, v2) :: insertA k v rest

/-- Association list deletion (Python `del dict[k]`). -/
def eraseA {α : Type} (k : String) : List (String × α) → List (String × α)
  | [] => []
  | (k2, v2) :: rest => if k2 = k then rest else (k2, v2) :: eraseA k rest

/-- ASCII lower-casing of one character, the effect of Python `str.lower`
on the ASCII paths produced by the decoder. -/
def lowerChar (c : Char) : Char :=
  if 'A' ≤ c ∧ c ≤ 'Z' then Char.ofNat (c.toNat + 32) else c

/-- The backslash character. -/
def bslash : Char := '\\'

/-- The forward slash character. -/
def fslash : Char := '/'

/-- Output path normalisation of `Restore.write_slices`:
`slices[0].path.lower().replace('\\', '/')` with one leading slash
stripped (`o_path.startswith('/')` and `o_path[1:]`, expressed on the
character list). -/
def normOut (s : String) : String :=
  let t := (s.data.map lowerChar).map (fun c => if c = bslash then fslash else c)
  match t with
  | [] => String.mk t
  | c :: rest => if c = fslash then String.mk rest else String.mk t

/-- `AssemblerState` of the spec: the mutable state of class `Restore`,
plus logs for the observable effects (written files and printed writer
warnings).  `done` is the writer's previously-written mapping; note that
the Python code never assigns into it. -/
structure Restore where
  completed : List String
  done : List (String × List Nat)
  errors : List BackupFile
  partials : List (String × List BackupFile)
  writes : List (String × List Nat)
  warnings : List String
deriving DecidableEq, Repr

/-- The Python `set.add` on the `completed` set of paths. -/
def addPath (l : List String) (p : String) : List String :=
  if p ∈ l then l else l ++ [p]

/-- A fresh `Restore()` state. -/
def initialRestore : Restore :=
  { completed := [], done := [], errors := [], partials := [], writes := [], warnings := [] }

/-- `Restore.write_slices(slices)`: normalise the path of the first slice,
write the contents in ascending sequence order (recorded in the `writes`
log), then compare against `self.done` — which is never updated, so the
lookup is against whatever `done` holds.  An empty slice list would be a
Python `IndexError`. -/
def Restore.writeSlices (r : Restore) (slices : List BackupFile) : Except String Restore :=
  match slices with
  | [] => .error msgIndexError
  | s0 :: _ =>
    let o_path := normOut s0.path
    let content := ((sortBySeq slices).map BackupFile.content).flatten
    let warn :=
      match lookupA o_path r.done with
      | some before => if before ≠ [] ∧ before ≠ content then [msgContentChanged ++ o_path] else []
      | none => []
    .ok { r with writes := r.writes ++ [(o_path, content)], warnings := r.warnings ++ warn }

/-- `Restore.process_file` after the fragment has been decoded: skip and
record fragments that carry decode warnings; write single complete
fragments immediately; otherwise append to the pending list of the path
(a `defaultdict`, so the entry is created on first touch) and, when
`got_all_slices` succeeds, write the set, mark the path completed and
delete the pending entry. -/
def Restore.processFile (r : Restore) (b : BackupFile) : Except String Restore :=
  if b.errors ≠ [] then .ok { r with errors := r.errors ++ [b] }
  else if b.is_complete then
    match r.writeSlices [b] with
    | .error e => .error e
    | .ok r1 => .ok { r1 with completed := addPath r1.completed b.path }
  else
    let slices2 := ((lookupA b.path r.partials).getD []) ++ [b]
    let r1 := { r with partials := insertA b.path slices2 r.partials }
    match gotAllSlices slices2 with
    | .error e => .error e
    | .ok true =>
      match r1.writeSlices slices2 with
      | .error e => .error e
      | .ok r2 =>
        .ok { r2 with completed := addPath r2.completed b.path,
                      partials := eraseA b.path r2.partials }
    | .ok false => .ok r1

/-- The end-of-run report of `restore_all`: the paths still pending are
printed as unfinished files. -/
def unfinishedFiles (r : Restore) : List String :=
  r.partials.map Prod.fst

/-! Concrete records and fragments used as test inputs for witnesses and
counterexamples. -/

/-- A small logical path used by concrete test fragments. -/
def pathA : String := "x"

/-- A second logical path used by concrete test fragments. -/
def pathB : String := "y"

/-- Image path of concrete test records. -/
def imgA : String := "img"

/-- Value of a sparse byte listing at an offset (0 elsewhere). -/
def lookupN (i : Nat) : List (Nat × Nat) → Nat
  | [] => 0
  | (j, v) :: rest => if j = i then v else lookupN i rest

/-- A 128-byte record that is zero except at the listed offsets. -/
def mkRec (entries : List (Nat × Nat)) : List Nat :=
  (List.range 0x80).map (fun i => lookupN i entries)

/-- A 128-byte volume header record with the given flag byte and zeros
elsewhere. -/
def mkHeader (flag : Nat) : List Nat :=
  flag :: List.replicate 127 0

/-- Fragment record whose path bytes are `0x01 'a'` — every byte is valid
ASCII, so the strict ASCII decode succeeds and no escaping happens. -/
def c3data : List Nat := mkRec [(5, 1), (6, 0x61), (0x53, 2)]

/-- Fragment record whose path bytes are `0x01 0xff` — the `0xff` byte makes
the strict ASCII decode fail, forcing the byte-by-byte escape fallback. -/
def c3bdata : List Nat := mkRec [(5, 1), (6, 0xff), (0x53, 2)]

/-- The fragment decoded from `c3bdata`. -/
def c3bfrag : BackupFile :=
  { errors := [], image_path := imgA, last := false, sequence := 0, unknown := 0,
    path := "%01%ff", content := [] }

/-- Fragment record with `path_len = 1` and a single NUL path byte: the
trailing-NUL trim leaves an empty path and no warning is recorded. -/
def c9data : List Nat := mkRec [(0x53, 1)]

/-- The fragment decoded from `c9data`. -/
def c9frag : BackupFile :=
  { errors := [], image_path := imgA, last := false, sequence := 0, unknown := 0,
    path := "", content := [] }

/-- Fragment record with flag `0xff`, path byte `'a'`, `path_len = 1`. -/
def c10data : List Nat := mkRec [(0, 0xff), (5, 0x61), (0x53, 1)]

/-- The fragment decoded from `c10data`. -/
def c10frag : BackupFile :=
  { errors := [], image_path := imgA, last := true, sequence := 0, unknown := 0,
    path := "a", content := [] }

/-- Warning-free fragment 1 of 2 for `pathA` (not last). -/
def w1 : BackupFile :=
  { errors := [], image_path := imgA, last := false, sequence := 1, unknown := 0,
    path := pathA, content := [10, 11] }

/-- Warning-free fragment 2 of 2 for `pathA` (last). -/
def w2 : BackupFile :=
  { errors := [], image_path := imgA, last := true, sequence := 2, unknown := 0,
    path := pathA, content := [20] }

/-- Fragment with sequence 1, `last` not set. -/
def q1 : BackupFile :=
  { errors := [], image_path := imgA, last := false, sequence := 1, unknown := 0,
    path := pathA, content := [1] }

/-- Fragment with sequence 2 and a stray `last` flag. -/
def q2 : BackupFile :=
  { errors := [], image_path := imgA, last := true, sequence := 2, unknown := 0,
    path := pathA, content := [2] }

/-- Fragment with sequence 3, `last` not set. -/
def q3 : BackupFile :=
  { errors := [], image_path := imgA, last := false, sequence := 3, unknown := 0,
    path := pathA, content := [3] }

/-- A complete single fragment (sequence 1, last) for `pathA`. -/
def k1 : BackupFile :=
  { errors := [], image_path := imgA, last := true, sequence := 1, unknown := 0,
    path := pathA, content := [100] }

/-- A warning-free non-complete fragment for `pathA`, arriving after `k1`
completed the path. -/
def k2 : BackupFile :=
  { errors := [], image_path := imgA, last := false, sequence := 2, unknown := 0,
    path := pathA, content := [101] }

/-- First complete fragment written to `pathA` (content `[0x61]`). -/
def m1 : BackupFile :=
  { errors := [], image_path := imgA, last := true, sequence := 1, unknown := 0,
    path := pathA, content := [0x61] }

/-- Second complete fragment written to `pathA` with different content. -/
def m2 : BackupFile :=
  { errors := [], image_path := imgA, last := true, sequence := 1, unknown := 0,
    path := pathA, content := [0x62] }

/-- A fragment that decoded with a warning. -/
def badFrag : BackupFile :=
  { errors := [msgPathLen ++ toString 0], image_path := imgA, last := false,
    sequence := 1, unknown := 0, path := badFileStr, content := [5] }

/-- Fragment (sequence 1, not last) for `pathB`. -/
def u1 : BackupFile :=
  { errors := [], image_path := imgA, last := false, sequence := 1, unknown := 0,
    path := pathB, content := [1] }

/-- Fragment (sequence 2) for `pathB` carrying a stray `last` flag. -/
def u2 : BackupFile :=
  { errors := [], image_path := imgA, last := true, sequence := 2, unknown := 0,
    path := pathB, content := [2] }

/-- Fragment (sequence 3, not last) for `pathB`: the highest sequence with
`last = false`. -/
def u3 : BackupFile :=
  { errors := [], image_path := imgA, last := false, sequence := 3, unknown := 0,
    path := pathB, content := [3] }

/-- Fragment (sequence 1, not last) for `pathA`, pending. -/
def v1 : BackupFile :=
  { errors := [], image_path := imgA, last := false, sequence := 1, unknown := 0,
    path := pathA, content := [41] }

/-- Fragment (sequence 2, not last) for `pathA`: contiguous with `v1` but
the set is still incomplete. -/
def v2 : BackupFile :=
  { errors := [], image_path := imgA, last := false, sequence := 2, unknown := 0,
    path := pathA, content := [42] }

/-- A state in which `pathA` has already been completed. -/
def r5 : Restore :=
  { completed := [pathA], done := [], errors := [], partials := [], writes := [], warnings := [] }

/-- A state in which `pathA` has one pending fragment. -/
def r8 : Restore :=
  { completed := [], done := [], errors := [], partials := [(pathA, [v1])],
    writes := [], warnings := [] }

/-- Whether a decode produced a header rather than aborting. -/
def isOkE (e : Except String BackupID) : Bool :=
  match e with
  | .ok _ => true
  | .error _ => false

/-- The assembler state reached after the warning-free fragments `acc` of
a single multi-fragment logical file `p` have arrived (and nothing else):
only the pending entry for `p` is populated. -/
def mkSt (p : String) (acc : List BackupFile) : Restore :=
  { completed := [], done := [], errors := [],
    partials := if acc = [] then [] else [(p, acc)], writes := [], warnings := [] }

/-- The assembler state after a single logical file `p` with sorted
fragment list `s` has been fully assembled: one write of the concatenated
content, the path completed, nothing pending. -/
def c1Final (p : String) (s : List BackupFile) : Restore :=
  { completed := [p], done := [], errors := [], partials := [],
    writes := [(normOut p, (s.map BackupFile.content).flatten)], warnings := [] }

instance {ε α : Type} [DecidableEq ε] [DecidableEq α] : DecidableEq (Except ε α)
  | .ok a, .ok b => if h : a = b then .isTrue (by rw [h]) else .isFalse (by simp [h])
  | .ok _, .error _ => .isFalse (by simp)
  | .error _, .ok _ => .isFalse (by simp)
  | .error e, .error f => if h : e = f then .isTrue (by rw [h]) else .isFalse (by simp [h])

/-! Helper lemmas about the embedding. -/

lemma lookupA_insertA_self {α : Type} (k : String) (v : α) (l : List (String × α)) :
    lookupA k (insertA k v l) = some v := by
  induction l with
  | nil => simp [insertA, lookupA]
  | cons h t ih =>
    obtain ⟨k2, v2⟩ := h
    by_cases hk : k2 = k
    · simp [insertA, hk, lookupA]
    · simp [insertA, hk, lookupA, ih]

lemma mem_keys_insertA {α : Type} (k : String) (v : α) (l : List (String × α)) :
    k ∈ (insertA k v l).map Prod.fst := by
  induction l with
  | nil => simp [insertA]
  | cons h t ih =>
    obtain ⟨k2, v2⟩ := h
    by_cases hk : k2 = k
    · simp [insertA, hk]
    · simp only [insertA, if_neg hk, List.map_cons, List.mem_cons]
      exact Or.inr ih

lemma sortBySeq_perm (l : List BackupFile) : (sortBySeq l).Perm l :=
  List.perm_insertionSort seqLE l

lemma sortBySeq_ne_nil {l : List BackupFile} (h : l ≠ []) : sortBySeq l ≠ [] := by
  intro hs
  apply h
  have hlen := (sortBySeq_perm l).length_eq
  rw [hs] at hlen
  exact List.eq_nil_of_length_eq_zero (by simpa using hlen.symm)

lemma gasLoop_nolast (n : Nat) :
    ∀ (s : List BackupFile) (i : Nat), (∀ f ∈ s, f.last = false) →
    gasLoop n i s =
      .ok (if s.map BackupFile.sequence = List.range' (i + 1) s.length then none else some false) := by
  intro s
  induction s with
  | nil => intro i _; simp [gasLoop]
  | cons f t ih =>
    intro i h
    have hf : f.last = false := h f (List.mem_cons_self f t)
    simp only [gasLoop]
    by_cases hseq : i + 1 = f.sequence
    · rw [if_neg (not_not_intro hseq), hf]
      simp only [Bool.false_and, Bool.false_eq_true, if_false]
      rw [ih (i + 1) (fun g hg => h g (List.mem_cons_of_mem f hg))]
      congr 1
      have hrange : List.range' (i + 1) (f :: t).length = (i + 1) :: List.range' (i + 2) t.length := by
        simp [List.range'_succ]
      rw [List.map_cons, hrange]
      refine if_congr ?_ rfl rfl
      constructor
      · intro he
        rw [he, ← hseq]
      · intro he
        exact ((List.cons.injEq _ _ _ _).mp he).2
    · rw [if_pos hseq]
      have hne : f.sequence :: t.map BackupFile.sequence ≠ List.range' (i + 1) (f :: t).length := by
        have hrange : List.range' (i + 1) (f :: t).length = (i + 1) :: List.range' (i + 2) t.length := by
          simp [List.range'_succ]
        rw [hrange]
        intro hcontra
        exact hseq ((List.cons.injEq _ _ _ _).mp hcontra).1.symm
      rw [List.map_cons, if_neg hne]

lemma gotAll_nolast (l : List BackupFile) (hne : l ≠ []) (h : ∀ f ∈ l, f.last = false) :
    gotAllSlices l = .ok false := by
  have hperm := sortBySeq_perm l
  have hall : ∀ f ∈ sortBySeq l, f.last = false := fun f hf => h f (hperm.subset hf)
  have hne2 : sortBySeq l ≠ [] := sortBySeq_ne_nil hne
  simp only [gotAllSlices]
  rw [gasLoop_nolast _ _ 0 hall]
  by_cases hcond : (sortBySeq l).map BackupFile.sequence = List.range' 1 (sortBySeq l).length
  · rw [if_pos hcond]
    have hg : (sortBySeq l).getLast? = some ((sortBySeq l).getLast hne2) :=
      List.getLast?_eq_getLast _ hne2
    have hmem := List.getLast_mem hne2
    rw [hg]
    simp [hall _ hmem]
  · rw [if_neg hcond]

lemma sortBySeq_sorted (l : List BackupFile) : List.Pairwise seqLE (sortBySeq l) :=
  List.sorted_insertionSort seqLE l

lemma sortBySeq_eq_of_perm {l s : List BackupFile} (hp : l.Perm s)
    (hs : List.Pairwise seqLT s) : sortBySeq l = s := by
  have hps : (sortBySeq l).Perm s := (sortBySeq_perm l).trans hp
  apply List.eq_of_perm_of_sorted hps ?_ hs
  have hle : List.Pairwise seqLE (sortBySeq l) := sortBySeq_sorted l
  have hns : (s.map BackupFile.sequence).Nodup := by
    have hlt : List.Pairwise (fun a b : Nat => a < b) (s.map BackupFile.sequence) :=
      List.pairwise_map.mpr hs
    exact hlt.imp Nat.ne_of_lt
  have hnodup : ((sortBySeq l).map BackupFile.sequence).Nodup :=
    (hps.map BackupFile.sequence).nodup_iff.mpr hns
  have hne : List.Pairwise (fun a b : BackupFile => a.sequence ≠ b.sequence) (sortBySeq l) :=
    List.pairwise_map.mp hnodup
  exact (hle.and hne).imp (fun h => Nat.lt_of_le_of_ne h.1 h.2)

lemma gasLoop_char (N n : Nat) (hnN : n ≤ N) :
    ∀ (s : List BackupFile) (i : Nat),
      n = i + s.length →
      (∀ f ∈ s, (f.last = true ↔ f.sequence = N) ∧ 1 ≤ f.sequence ∧ f.sequence ≤ N) →
      List.Pairwise seqLT s →
      (∀ f ∈ s, i + 1 ≤ f.sequence) →
      gasLoop n i s =
        .ok (if s.map BackupFile.sequence = List.range' (i + 1) s.length then none else some false) := by
  intro s
  induction s with
  | nil => intro i _ _ _ _; simp [gasLoop]
  | cons f t ih =>
    intro i hn hprops hpw hlb
    have hn2 : n = i + t.length + 1 := by
      rw [hn]; simp [List.length_cons]; omega
    simp only [gasLoop]
    by_cases hseq : i + 1 = f.sequence
    · rw [if_neg (not_not_intro hseq)]
      have hcrash : (f.last && decide (i ≠ n - 1)) = false := by
        cases hl : f.last with
        | false => simp
        | true =>
          have hfN : f.sequence = N := ((hprops f (List.mem_cons_self f t)).1).mp hl
          have hieq : i = n - 1 := by omega
          simp [hieq]
      rw [hcrash]
      simp only [Bool.false_eq_true, if_false]
      have hlb2 : ∀ g ∈ t, (i + 1) + 1 ≤ g.sequence := by
        intro g hg
        have hfg : seqLT f g := (List.pairwise_cons.mp hpw).1 g hg
        rw [seqLT] at hfg
        omega
      rw [ih (i + 1) (by omega) (fun g hg => hprops g (List.mem_cons_of_mem f hg))
        (List.pairwise_cons.mp hpw).2 hlb2]
      congr 1
      have hrange : List.range' (i + 1) (f :: t).length = (i + 1) :: List.range' (i + 2) t.length := by
        simp [List.range'_succ]
      rw [List.map_cons, hrange]
      refine if_congr ?_ rfl rfl
      constructor
      · intro he
        rw [he, ← hseq]
      · intro he
        exact ((List.cons.injEq _ _ _ _).mp he).2
    · rw [if_pos hseq]
      have hnecons : f.sequence :: t.map BackupFile.sequence ≠
          List.range' (i + 1) (f :: t).length := by
        have hrange : List.range' (i + 1) (f :: t).length = (i + 1) :: List.range' (i + 2) t.length := by
          simp [List.range'_succ]
        rw [hrange]
        intro hcontra
        exact hseq ((List.cons.injEq _ _ _ _).mp hcontra).1.symm
      rw [List.map_cons, if_neg hnecons]

lemma gotAll_char (N : Nat) (s l : List BackupFile)
    (hp : l.Perm s) (hsort : List.Pairwise seqLT s) (hne : s ≠ [])
    (hlen : s.length ≤ N)
    (hprops : ∀ f ∈ s, (f.last = true ↔ f.sequence = N) ∧ 1 ≤ f.sequence ∧ f.sequence ≤ N) :
    gotAllSlices l = .ok (decide (s.map BackupFile.sequence = List.range' 1 N)) := by
  have hsl : sortBySeq l = s := sortBySeq_eq_of_perm hp hsort
  simp only [gotAllSlices, hsl]
  rw [gasLoop_char N s.length hlen s 0 (by omega) hprops hsort (fun f hf => (hprops f hf).2.1)]
  simp only [Nat.zero_add]
  by_cases hcond : s.map BackupFile.sequence = List.range' 1 s.length
  · rw [if_pos hcond]
    have hg : s.getLast? = some (s.getLast hne) := List.getLast?_eq_getLast _ hne
    rw [hg]
    have hmem := List.getLast_mem hne
    show Except.ok ((s.getLast hne).last) =
      Except.ok (decide (s.map BackupFile.sequence = List.range' 1 N))
    have hseqlast : (s.getLast hne).sequence = s.length := by
      have hmap : (s.map BackupFile.sequence).getLast? = some ((s.getLast hne).sequence) := by
        rw [List.getLast?_map, hg]
        rfl
      rw [hcond] at hmap
      have hlen0 : s.length ≠ 0 := by
        intro h0; exact hne (List.eq_nil_of_length_eq_zero h0)
      have hr : (List.range' 1 s.length).getLast? = some s.length := by
        rw [List.getLast?_range', if_neg hlen0]
        congr 1
        omega
      rw [hr] at hmap
      exact (Option.some.inj hmap).symm
    have hiff : (s.map BackupFile.sequence = List.range' 1 N) ↔ s.length = N := by
      constructor
      · intro h
        have := congrArg List.length h
        simpa using this
      · intro h
        have hc2 := hcond
        rw [h] at hc2
        exact hc2
    have hlast_iff := (hprops _ hmem).1
    cases hl : (s.getLast hne).last with
    | true =>
      have hfN : (s.getLast hne).sequence = N := hlast_iff.mp hl
      have hlen_eq : s.length = N := by omega
      rw [decide_eq_true (hiff.mpr hlen_eq)]
    | false =>
      have hnN : (s.getLast hne).sequence ≠ N := by
        intro hc
        have := hlast_iff.mpr hc
        rw [hl] at this
        exact Bool.false_ne_true this
      have hlenN : s.length ≠ N := by omega
      rw [decide_eq_false (fun hc => hlenN (hiff.mp hc))]
  · rw [if_neg hcond]
    have hlenN : s.map BackupFile.sequence ≠ List.range' 1 N := by
      intro hc
      have hlen_eq : s.length = N := by
        have := congrArg List.length hc
        simpa using this
      rw [hlen_eq] at hcond
      exact hcond hc
    rw [decide_eq_false hlenN]

lemma exceptBindOk {α β : Type} (a : α) (g : α → Except String β) :
    (Except.ok a >>= g) = g a := rfl

lemma processFile_step_pending (r : Restore) (b : BackupFile)
    (he : b.errors = []) (hic : b.is_complete = false)
    (hfalse : gotAllSlices (((lookupA b.path r.partials).getD []) ++ [b]) = .ok false) :
    Restore.processFile r b =
      .ok { r with partials := insertA b.path (((lookupA b.path r.partials).getD []) ++ [b]) r.partials } := by
  rw [Restore.processFile, if_neg (by simp [he]), if_neg (by simp [hic])]
  simp only [hfalse]

lemma processFile_step_iscomplete (r : Restore) (b : BackupFile)
    (he : b.errors = []) (hic : b.is_complete = true) (hdone : r.done = []) :
    Restore.processFile r b =
      .ok { r with
        completed := addPath r.completed b.path,
        writes := r.writes ++ [(normOut b.path, ((sortBySeq [b]).map BackupFile.content).flatten)] } := by
  rw [Restore.processFile, if_neg (by simp [he]), if_pos hic]
  simp only [Restore.writeSlices]
  simp [hdone, lookupA]

lemma processFile_step_complete (r : Restore) (b : BackupFile)
    (he : b.errors = []) (hic : b.is_complete = false) (hdone : r.done = [])
    (g : BackupFile) (gs : List BackupFile)
    (hshape : ((lookupA b.path r.partials).getD []) ++ [b] = g :: gs)
    (htrue : gotAllSlices (g :: gs) = .ok true) :
    Restore.processFile r b =
      .ok { r with
        completed := addPath r.completed b.path,
        partials := eraseA b.path (insertA b.path (g :: gs) r.partials),
        writes := r.writes ++ [(normOut g.path, ((sortBySeq (g :: gs)).map BackupFile.content).flatten)] } := by
  rw [Restore.processFile, if_neg (by simp [he]), if_neg (by simp [hic])]
  rw [hshape]
  simp only [htrue]
  simp only [Restore.writeSlices]
  simp [hdone, lookupA]

lemma pairwise_lt_range1 : ∀ (n s : Nat), List.Pairwise (fun a b : Nat => a < b) (List.range' s n)
  | 0, s => by simp
  | n + 1, s => by
    rw [List.range'_succ]
    refine List.pairwise_cons.mpr ⟨?_, pairwise_lt_range1 n (s + 1)⟩
    intro b hb
    have := List.mem_range'_1.mp hb
    omega

lemma c1_fold (p : String) (N : Nat) (s : List BackupFile)
    (hmap : s.map BackupFile.sequence = List.range' 1 N)
    (hsort : List.Pairwise seqLT s)
    (hprops : ∀ f ∈ s, f.path = p ∧ f.errors = [] ∧ (f.last = true ↔ f.sequence = N))
    (hN2 : 2 ≤ N) :
    ∀ (rem acc : List BackupFile), rem ≠ [] → ((acc ++ rem).Perm s) →
      List.foldlM Restore.processFile (mkSt p acc) rem = .ok (c1Final p s) := by
  have hslen : s.length = N := by
    have := congrArg List.length hmap
    simpa using this
  have hbounds : ∀ f ∈ s, 1 ≤ f.sequence ∧ f.sequence ≤ N := by
    intro f hf
    have hm : f.sequence ∈ s.map BackupFile.sequence := List.mem_map_of_mem _ hf
    rw [hmap] at hm
    have := List.mem_range'_1.mp hm
    omega
  have hprops2 : ∀ f ∈ s, (f.last = true ↔ f.sequence = N) ∧ 1 ≤ f.sequence ∧ f.sequence ≤ N :=
    fun f hf => ⟨(hprops f hf).2.2, hbounds f hf⟩
  have hsne : s ≠ [] := by
    intro h0
    rw [h0] at hslen
    simp at hslen
    omega
  intro rem
  induction rem with
  | nil => intro acc hne _; exact absurd rfl hne
  | cons f t ih =>
    intro acc _ hperm
    have hfs : f ∈ s := hperm.subset (by simp)
    obtain ⟨hfp, hfe, hfl⟩ := hprops f hfs
    have hic : f.is_complete = false := by
      rw [BackupFile.is_complete]
      cases hl : f.last with
      | false => simp
      | true =>
        simp only [Bool.true_and]
        rw [beq_eq_false_iff_ne]
        have hN : f.sequence = N := hfl.mp hl
        omega
    have hslices : (lookupA f.path (mkSt p acc).partials).getD [] = acc := by
      rw [hfp]
      by_cases ha : acc = []
      · simp [mkSt, ha, lookupA]
      · simp [mkSt, ha, lookupA]
    cases t with
    | nil =>
      have hpermfull : (acc ++ [f]).Perm s := hperm
      have hsortfull : sortBySeq (acc ++ [f]) = s := sortBySeq_eq_of_perm hpermfull hsort
      have hgott : gotAllSlices (acc ++ [f]) = .ok true := by
        have := gotAll_char N s (acc ++ [f]) hpermfull hsort hsne (by omega) hprops2
        rw [decide_eq_true hmap] at this
        exact this
      obtain ⟨g, gs, hshape⟩ : ∃ g gs, acc ++ [f] = g :: gs := by
        cases acc with
        | nil => exact ⟨f, [], rfl⟩
        | cons a t2 => exact ⟨a, t2 ++ [f], rfl⟩
      have hgp : g.path = p := by
        have hgmem : g ∈ s := hpermfull.subset (by rw [hshape]; simp)
        exact (hprops g hgmem).1
      have hshape2 : ((lookupA f.path (mkSt p acc).partials).getD []) ++ [f] = g :: gs := by
        rw [hslices, hshape]
      have hstep := processFile_step_complete (mkSt p acc) f hfe hic rfl g gs hshape2
        (by rw [← hshape]; exact hgott)
      rw [List.foldlM_cons, hstep, exceptBindOk, List.foldlM_nil]
      show Except.ok _ = Except.ok (c1Final p s)
      congr 1
      rw [← hshape, hsortfull, hgp]
      have herase : eraseA f.path (insertA f.path (acc ++ [f]) (mkSt p acc).partials) = [] := by
        rw [hfp]
        by_cases ha : acc = []
        · simp [mkSt, ha, insertA, eraseA]
        · simp [mkSt, ha, insertA, eraseA]
      rw [herase]
      simp [mkSt, c1Final, addPath, hfp]
    | cons f2 t2 =>
      have hsub : (acc ++ [f]).Subperm s := by
        have h1 : (acc ++ [f]).Sublist ((acc ++ [f]) ++ (f2 :: t2)) := List.sublist_append_left _ _
        have h2 : ((acc ++ [f]) ++ (f2 :: t2)).Perm s := by
          simpa [List.append_assoc] using hperm
        exact h1.subperm.trans h2.subperm
      obtain ⟨u, hu_perm, hu_sub⟩ := hsub
      have hu_sort : List.Pairwise seqLT u := List.Pairwise.sublist hu_sub hsort
      have hu_len : u.length ≤ N := by
        rw [← hslen]
        exact hu_sub.length_le
      have hu_lenacc : u.length = acc.length + 1 := by
        have := hu_perm.length_eq
        simpa using this
      have hu_ne : u ≠ [] := by
        intro h0
        rw [h0] at hu_lenacc
        simp at hu_lenacc
      have hu_props : ∀ g ∈ u, (g.last = true ↔ g.sequence = N) ∧ 1 ≤ g.sequence ∧ g.sequence ≤ N :=
        fun g hg => hprops2 g (hu_sub.subset hg)
      have htotal : acc.length + (t2.length + 2) = N := by
        have h3 := hperm.length_eq
        rw [hslen] at h3
        simp [List.length_append] at h3
        omega
      have hu_small : u.map BackupFile.sequence ≠ List.range' 1 N := by
        intro hc
        have h1 : u.length = N := by
          have := congrArg List.length hc
          simpa using this
        omega
      have hgotf : gotAllSlices (acc ++ [f]) = .ok false := by
        have := gotAll_char N u (acc ++ [f]) hu_perm.symm hu_sort hu_ne hu_len hu_props
        rw [decide_eq_false hu_small] at this
        exact this
      have hgotf2 : gotAllSlices (((lookupA f.path (mkSt p acc).partials).getD []) ++ [f]) = .ok false := by
        rw [hslices]
        exact hgotf
      have hstep := processFile_step_pending (mkSt p acc) f hfe hic hgotf2
      have hstate : { mkSt p acc with
          partials := insertA f.path (((lookupA f.path (mkSt p acc).partials).getD []) ++ [f])
            (mkSt p acc).partials } = mkSt p (acc ++ [f]) := by
        rw [hslices, hfp]
        by_cases ha : acc = []
        · simp [mkSt, ha, insertA]
        · simp [mkSt, ha, insertA]
      rw [List.foldlM_cons, hstep, exceptBindOk, hstate]
      exact ih (acc ++ [f]) (by simp) (by simpa [List.append_assoc] using hperm)

/-! Claim C1: order-independent reassembly of a full fragment set. -/

/-- C1: feeding the assembler any arrival order of warning-free fragments
for one logical path whose sequences are exactly `1..N` with `last` set
precisely on fragment `N` produces no crash, exactly one written file for
that path, whose bytes are the concatenation of the fragment contents in
ascending sequence order, and leaves the path completed with nothing
pending. -/
theorem c1_any_order_assembles (p : String) (N : Nat) (l : List BackupFile)
    (hN : 1 ≤ N)
    (hseqperm : (l.map BackupFile.sequence).Perm (List.range' 1 N))
    (hprops : ∀ f ∈ l, f.path = p ∧ f.errors = [] ∧ (f.last = true ↔ f.sequence = N)) :
    List.foldlM Restore.processFile initialRestore l =
      .ok { completed := [p], done := [], errors := [], partials := [],
            writes := [(normOut p, ((sortBySeq l).map BackupFile.content).flatten)],
            warnings := [] } := by
  show List.foldlM Restore.processFile initialRestore l = .ok (c1Final p (sortBySeq l))
  have hsl : (sortBySeq l).Perm l := sortBySeq_perm l
  have hmap : (sortBySeq l).map BackupFile.sequence = List.range' 1 N := by
    refine List.eq_of_perm_of_sorted (r := fun a b : Nat => a ≤ b)
      ((hsl.map _).trans hseqperm) ?_ ?_
    · exact List.pairwise_map.mpr (sortBySeq_sorted l)
    · exact (pairwise_lt_range1 N 1).imp Nat.le_of_lt
  have hsort : List.Pairwise seqLT (sortBySeq l) := by
    have hnd : ((sortBySeq l).map BackupFile.sequence).Nodup := by
      rw [hmap]
      exact (pairwise_lt_range1 N 1).imp Nat.ne_of_lt
    have hne2 := List.pairwise_map.mp hnd
    exact ((sortBySeq_sorted l).and hne2).imp (fun h => Nat.lt_of_le_of_ne h.1 h.2)
  have hpropsS : ∀ f ∈ sortBySeq l, f.path = p ∧ f.errors = [] ∧ (f.last = true ↔ f.sequence = N) :=
    fun f hf => hprops f (hsl.subset hf)
  have hlen : l.length = N := by
    have := hseqperm.length_eq
    simpa using this
  by_cases hN1 : N = 1
  · subst hN1
    have hlen1 : l.length = 1 := hlen
    obtain ⟨f, hfl_eq⟩ : ∃ f, l = [f] := by
      cases l with
      | nil => simp at hlen1
      | cons f t =>
        cases t with
        | nil => exact ⟨f, rfl⟩
        | cons g t2 => simp at hlen1
    subst hfl_eq
    obtain ⟨hfp, hfe, hfl⟩ := hprops f (by simp)
    have hfseq : f.sequence = 1 := by
      have h1 : List.range' 1 1 = [1] := rfl
      rw [h1, List.map_singleton] at hseqperm
      have h2 := List.perm_singleton.mp hseqperm
      exact (List.cons.injEq _ _ _ _).mp h2 |>.1
    have hic : f.is_complete = true := by
      rw [BackupFile.is_complete, hfseq, hfl.mpr hfseq]
      simp
    have hstep := processFile_step_iscomplete initialRestore f hfe hic rfl
    rw [List.foldlM_cons, hstep, exceptBindOk, List.foldlM_nil]
    show Except.ok _ = Except.ok (c1Final p (sortBySeq [f]))
    congr 1
    rw [hfp]
    simp [c1Final, initialRestore, addPath]
  · have hN2 : 2 ≤ N := by omega
    have hlne : l ≠ [] := by
      intro h0
      rw [h0] at hlen
      simp at hlen
      omega
    have hmk : mkSt p ([] : List BackupFile) = initialRestore := by
      simp [mkSt, initialRestore]
    have := c1_fold p N (sortBySeq l) hmap hsort hpropsS hN2 l [] hlne (by simpa using hsl.symm)
    rw [hmk] at this
    exact this

/-- Witness for C1: the two-fragment file for `pathA` fed in reversed
arrival order `2, 1`. -/
theorem c1_any_order_assembles_witness :
    List.foldlM Restore.processFile initialRestore [w2, w1] =
      .ok { completed := [pathA], done := [], errors := [], partials := [],
            writes := [(normOut pathA, ((sortBySeq [w2, w1]).map BackupFile.content).flatten)],
            warnings := [] } :=
  c1_any_order_assembles pathA 2 [w2, w1] (by decide) (by decide) (by decide)

/-! Claim C8: contiguous pending sets whose final element is not last. -/

/-- Counterexample to C8: the reachable pending list with sequences
`1, 2, 3` (arrival order `3, 2, 1`), a stray `last` flag on sequence 2 and
`last = false` on the highest element.  The claim says the completeness
test is false on every such list; instead the test raises the undefined
`error` call and the run aborts. -/
theorem c8_counterexample :
    gotAllSlices [u3, u2, u1] = .error msgNameError ∧ gotAllSlices [u3, u2, u1] ≠ .ok false := by
  decide

/-- C8 (amended): for a pending set whose sequences are contiguous from 1
and in which no fragment carries the `last` flag (in particular the
highest-sequence element does not), the completeness test is false, the
arriving fragment is simply appended to the pending entry, and the path
appears in the end-of-run unfinished-files report. -/
theorem c8_pending_unfinished (r : Restore) (f : BackupFile) (N : Nat)
    (he : f.errors = [])
    (hlast : ∀ g ∈ ((lookupA f.path r.partials).getD []) ++ [f], g.last = false)
    (hseq : (sortBySeq (((lookupA f.path r.partials).getD []) ++ [f])).map BackupFile.sequence =
      List.range' 1 N) :
    Restore.processFile r f =
      .ok { r with partials := insertA f.path (((lookupA f.path r.partials).getD []) ++ [f]) r.partials }
    ∧ f.path ∈ unfinishedFiles
        { r with partials := insertA f.path (((lookupA f.path r.partials).getD []) ++ [f]) r.partials } := by
  have hflast : f.last = false := hlast f (by simp)
  have hic : f.is_complete = false := by simp [BackupFile.is_complete, hflast]
  have hg : gotAllSlices (((lookupA f.path r.partials).getD []) ++ [f]) = .ok false :=
    gotAll_nolast _ (by simp) hlast
  constructor
  · rw [Restore.processFile, if_neg (by simp [he]), if_neg (by simp [hic])]
    simp only [hg]
  · simp only [unfinishedFiles]
    exact mem_keys_insertA _ _ _

/-- Witness for the amended C8 on the concrete pending set `{1, 2}` with
no `last` flag and fragment 3 never arriving. -/
theorem c8_pending_unfinished_witness :
    Restore.processFile r8 v2 =
      .ok { r8 with partials := insertA v2.path (((lookupA v2.path r8.partials).getD []) ++ [v2]) r8.partials }
    ∧ v2.path ∈ unfinishedFiles
        { r8 with partials := insertA v2.path (((lookupA v2.path r8.partials).getD []) ++ [v2]) r8.partials } :=
  c8_pending_unfinished r8 v2 2 (by decide) (by decide) (by decide)

/-! Claim C2: header decoding succeeds iff the flag byte is 0x00 or 0xFF. -/

/-- C2: decoding a 128-byte volume header record succeeds if and only if
its flag byte is `0x00` or `0xFF`; on success `last` holds exactly when
the flag is `0xFF`; any other flag value aborts with a fatal error and
produces no header. -/
theorem c2_header_flag (path : String) (data : List Nat) (h : data.length = 128) :
    (isOkE (decodeBackupID path data) = true ↔ (data.getD 0 0 = 0x00 ∨ data.getD 0 0 = 0xff))
    ∧ ∀ hd : BackupID, decodeBackupID path data = .ok hd → (hd.last = true ↔ data.getD 0 0 = 0xff) := by
  cases data with
  | nil => simp at h
  | cons a t =>
    have hgetD : (a :: t).getD 0 0 = a := rfl
    rw [hgetD]
    simp only [decodeBackupID, List.get?_cons_zero]
    by_cases hfa : a = 0 ∨ a = 255
    · rw [if_pos hfa]
      have h7 : ¬ ((a :: t).length < 7) := by
        rw [h]; omega
      rw [if_neg h7]
      constructor
      · simpa [isOkE] using hfa
      · intro hd hok
        have hrec := Except.ok.inj hok
        rw [← hrec]
        simp [beq_iff_eq]
    · rw [if_neg hfa]
      constructor
      · simpa [isOkE] using hfa
      · intro hd hok
        exact absurd hok (by simp)

/-- Witness for C2 at the concrete header with flag byte `0x01`. -/
theorem c2_header_flag_witness :
    (isOkE (decodeBackupID imgA (mkHeader 1)) = true ↔
      ((mkHeader 1).getD 0 0 = 0x00 ∨ (mkHeader 1).getD 0 0 = 0xff))
    ∧ ∀ hd : BackupID, decodeBackupID imgA (mkHeader 1) = .ok hd →
        (hd.last = true ↔ (mkHeader 1).getD 0 0 = 0xff) :=
  c2_header_flag imgA (mkHeader 1) (by decide)

/-! Claim C10: `last` is set iff the fragment flag byte is exactly 0xFF. -/

/-- C10: the fragment decoder sets `last` to true if and only if the flag
byte equals `0xFF`; consequently `is_complete` can only hold when the flag
byte is exactly `0xFF`. -/
theorem c10_last_iff (path : String) (data : List Nat) (f : BackupFile)
    (h : decodeBackupFile path data = .ok f) :
    (f.last = true ↔ data.getD 0 0 = 0xff)
    ∧ (f.is_complete = true → data.getD 0 0 = 0xff) := by
  rw [decodeBackupFile] at h
  by_cases hl : data.length < 0x54
  · rw [if_pos hl] at h
    exact absurd h (by simp)
  · rw [if_neg hl] at h
    have hrec := Except.ok.inj h
    rw [← hrec]
    constructor
    · simp [beq_iff_eq]
    · intro hc
      rw [BackupFile.is_complete] at hc
      have := (Bool.and_eq_true _ _).mp hc
      simpa [beq_iff_eq] using this.1

/-- Witness for C10 at a concrete record with flag `0xFF`. -/
theorem c10_last_iff_witness :
    (c10frag.last = true ↔ c10data.getD 0 0 = 0xff)
    ∧ (c10frag.is_complete = true → c10data.getD 0 0 = 0xff) :=
  c10_last_iff imgA c10data c10frag (by decide)

/-! Claim C7: fragments with decode warnings are skipped without touching
assembler state. -/

/-- C7: a fragment that decoded with warnings leaves `partials`,
`completed`, the write log and every other component unchanged; it is only
appended to the skip report `errors`. -/
theorem c7_skip (r : Restore) (f : BackupFile) (h : f.errors ≠ []) :
    Restore.processFile r f = .ok { r with errors := r.errors ++ [f] } := by
  rw [Restore.processFile, if_pos h]

/-- Witness for C7 on a concrete warning-carrying fragment. -/
theorem c7_skip_witness :
    badFrag.errors ≠ [] ∧
    Restore.processFile initialRestore badFrag =
      .ok { initialRestore with errors := initialRestore.errors ++ [badFrag] } :=
  ⟨by decide, c7_skip initialRestore badFrag (by decide)⟩

/-! Claim C4: the misplaced-last-flag branch of the completeness test. -/

/-- C4: on a reachable pending list (arrival order `3, 2, 1` with the
stray `last` flag on sequence 2) the completeness test does not log an
inconsistency and carry on — it raises, because `got_all_slices` calls an
undefined `error` routine, and the whole run aborts. -/
theorem c4_crash_eval :
    List.foldlM Restore.processFile initialRestore [q3, q2, q1] = .error msgNameError := by
  decide

/-! Claim C6: the writer's content-changed warning. -/

/-- C6: writing different content twice to the same normalized path emits
no warning at all, because `Restore.__init__` creates `self.done` but
`write_slices` never assigns into it, so the lookup of previous content
always misses. -/
theorem c6_no_warning_eval :
    (List.foldlM Restore.processFile initialRestore [m1, m2]).map
      (fun r => (r.warnings, r.writes)) = .ok ([], [(pathA, [0x61]), (pathA, [0x62])]) := by
  decide

/-! Claim C5: exclusivity of pending/completed. -/

/-- Counterexample to C5: a run of two warning-free fragments (a complete
one, then a non-complete one for the same path) leaves the path both in
`completed` and pending with one fragment. -/
theorem c5_counterexample :
    (List.foldlM Restore.processFile initialRestore [k1, k2]).map
      (fun r => (decide (pathA ∈ r.completed), lookupA pathA r.partials)) =
      .ok (true, some [k2]) := by
  decide

/-- C5 (amended): a warning-free, non-complete fragment arriving for a
path that is already completed is re-merged into that path's pending list
(there is no completed-path guard), so the path ends up pending and
completed simultaneously. -/
theorem c5_remerge (r : Restore) (f : BackupFile)
    (he : f.errors = []) (hic : f.is_complete = false)
    (hg : gotAllSlices (((lookupA f.path r.partials).getD []) ++ [f]) = .ok false)
    (hc : f.path ∈ r.completed) :
    Restore.processFile r f =
      .ok { r with partials := insertA f.path (((lookupA f.path r.partials).getD []) ++ [f]) r.partials }
    ∧ f.path ∈ r.completed
    ∧ lookupA f.path (insertA f.path (((lookupA f.path r.partials).getD []) ++ [f]) r.partials) =
        some (((lookupA f.path r.partials).getD []) ++ [f]) := by
  refine ⟨?_, hc, lookupA_insertA_self _ _ _⟩
  rw [Restore.processFile, if_neg (by simp [he]), if_neg (by simp [hic])]
  simp only [hg]

/-- Witness for the amended C5 on a concrete completed-then-pending run
state. -/
theorem c5_remerge_witness :
    Restore.processFile r5 k2 =
      .ok { r5 with partials := insertA k2.path (((lookupA k2.path r5.partials).getD []) ++ [k2]) r5.partials }
    ∧ k2.path ∈ r5.completed
    ∧ lookupA k2.path (insertA k2.path (((lookupA k2.path r5.partials).getD []) ++ [k2]) r5.partials) =
        some (((lookupA k2.path r5.partials).getD []) ++ [k2]) :=
  c5_remerge r5 k2 (by decide) (by decide) (by decide) (by decide)

/-! Claim C3: the escape fallback of path decoding. -/

/-- Counterexample to C3: a fragment whose raw path bytes are `0x01 'a'` —
byte `0x01` is not printable, yet every byte is valid ASCII, so the strict
decode succeeds and the logical path keeps the raw control character: it
contains no percent escape at all. -/
theorem c3_counterexample :
    (decodeBackupFile imgA c3data).map (fun f => (f.errors, f.path, f.path.data.contains '%')) =
      .ok ([], String.mk [Char.ofNat 1, Char.ofNat 0x61], false) := by
  decide

/-! Claim C9: empty logical paths. -/

/-- Counterexample to C9: a record with `path_len = 1` whose single path
byte is NUL decodes — after the trailing-NUL trim — to an empty
`logical_path` with no warning recorded. -/
theorem c9_counterexample :
    (decodeBackupFile imgA c9data).map (fun f => (f.path, f.errors)) = .ok ("", []) := by
  decide

lemma joinAll_append (a b : List String) : joinAll (a ++ b) = joinAll a ++ joinAll b := by
  induction a with
  | nil => simp [joinAll]
  | cons x xs ih =>
    rw [List.cons_append]
    show x ++ joinAll (xs ++ b) = (x ++ joinAll xs) ++ joinAll b
    rw [ih, String.append_assoc]

lemma decodeByte_ne_empty (b : Nat) : decodeByte b ≠ "" := by
  rw [decodeByte]
  by_cases hc : b < 0x80 ∧ 0x20 ≤ b
  · rw [if_pos hc]
    intro h
    have := congrArg String.data h
    simp at this
  · rw [if_neg hc]
    intro h
    have := congrArg String.data h
    simp at this

lemma joinAll_ne_empty (l : List String) (hne : l ≠ []) (h : ∀ x ∈ l, x ≠ "") :
    joinAll l ≠ "" := by
  cases l with
  | nil => exact absurd rfl hne
  | cons x xs =>
    rw [joinAll]
    intro hc
    have hlen := congrArg String.length hc
    rw [String.length_append] at hlen
    have hx0 : x.length = 0 := by
      have : ("" : String).length = 0 := rfl
      omega
    have hxdata : x.data = [] := List.eq_nil_of_length_eq_zero hx0
    exact h x (List.mem_cons_self x xs) (String.ext hxdata)

lemma trimmedRaw_eq_nil_iff (data : List Nat) (hlen : 0x54 ≤ data.length)
    (h1 : 1 ≤ data.getD 0x53 0) (h78 : data.getD 0x53 0 ≤ 78) :
    (trimmedRaw data = [] ↔ (data.getD 0x53 0 = 1 ∧ data.getD 5 0 = 0)) := by
  have h5 : 5 < data.length := by omega
  have hd5 : data.getD 5 0 = data[5] := by
    rw [List.getD_eq_getElem?_getD, List.getElem?_eq_getElem h5]
    rfl
  have hdrop : data.drop 5 = data[5] :: data.drop 6 := List.drop_eq_getElem_cons h5
  have hlraw : ((data.drop 5).take (data.getD 0x53 0)).length = data.getD 0x53 0 := by
    rw [List.length_take_of_le]
    rw [List.length_drop]
    omega
  rw [trimmedRaw]
  by_cases hpl1 : data.getD 0x53 0 = 1
  · have hraw : (data.drop 5).take (data.getD 0x53 0) = [data[5]] := by
      rw [hdrop, hpl1]
      rfl
    rw [hraw]
    have hgl : ([data[5]] : List Nat).getLastD 1 = data[5] := by
      rw [List.getLastD_cons, List.getLastD_nil]
    rw [hgl]
    by_cases hb : data[5] = 0
    · rw [if_pos hb, List.dropLast_single]
      exact iff_of_true rfl ⟨hpl1, by rw [hd5]; exact hb⟩
    · rw [if_neg hb]
      refine iff_of_false (by simp) ?_
      intro hc
      exact hb (by rw [← hd5]; exact hc.2)
  · have hpl2 : 2 ≤ data.getD 0x53 0 := by omega
    constructor
    · intro hemp
      exfalso
      by_cases hlast : ((data.drop 5).take (data.getD 0x53 0)).getLastD 1 = 0
      · rw [if_pos hlast] at hemp
        have hle := congrArg List.length hemp
        rw [List.length_dropLast, hlraw, List.length_nil] at hle
        omega
      · rw [if_neg hlast] at hemp
        have hle := congrArg List.length hemp
        rw [hlraw, List.length_nil] at hle
        omega
    · intro hc
      exact absurd hc.1 hpl1

lemma decodedPath_empty_iff (data : List Nat) (hlen : 0x54 ≤ data.length)
    (h1 : 1 ≤ data.getD 0x53 0) (h78 : data.getD 0x53 0 ≤ 78) :
    (decodedPath data = "" ↔ (data.getD 0x53 0 = 1 ∧ data.getD 5 0 = 0)) := by
  have hval : ¬ (data.getD 0x53 0 = 0 ∨ 78 < data.getD 0x53 0) := by omega
  have hnil := trimmedRaw_eq_nil_iff data hlen h1 h78
  rw [decodedPath, if_neg hval]
  by_cases hall : (trimmedRaw data).all (fun b => decide (b < 0x80)) = true
  · rw [if_pos hall]
    constructor
    · intro h
      apply hnil.mp
      have := congrArg String.data h
      simpa using this
    · intro hc
      rw [hnil.mpr hc]
      rfl
  · rw [if_neg hall]
    constructor
    · intro h
      exfalso
      have htne : trimmedRaw data ≠ [] := by
        intro h0
        rw [h0] at hall
        simp at hall
      refine joinAll_ne_empty ((trimmedRaw data).map decodeByte) ?_ ?_ h
      · intro hc
        exact htne (by simpa using hc)
      · intro x hx
        obtain ⟨b, _, hb⟩ := List.mem_map.mp hx
        rw [← hb]
        exact decodeByte_ne_empty b
    · intro hc
      exfalso
      rw [hnil.mpr hc] at hall
      simp at hall

/-- C9 (amended): a decoded fragment's `logical_path` is empty exactly
when the path field is a lone NUL byte (`path_len = 1`, byte `0x00`) — in
that case no path warning accompanies it, the error list holding at most
the flag warning; a bad path length still yields the non-empty sentinel
`bad_file` together with its warning. -/
theorem c9_empty_path (path : String) (data : List Nat) (f : BackupFile)
    (hlen : 0x54 ≤ data.length)
    (hok : decodeBackupFile path data = .ok f) :
    (f.path = "" ↔ (data.getD 0x53 0 = 1 ∧ data.getD 5 0 = 0))
    ∧ (f.path = "" → f.errors =
        (if data.getD 0 0 ≠ 0x00 ∧ data.getD 0 0 ≠ 0xff
         then [f.path ++ msgFlagVal ++ hex2 (data.getD 0 0)] else [])) := by
  rw [decodeBackupFile, if_neg (by omega)] at hok
  have hf := Except.ok.inj hok
  rw [← hf]
  constructor
  · show decodedPath data = "" ↔ _
    by_cases hval : data.getD 0x53 0 = 0 ∨ 78 < data.getD 0x53 0
    · rw [decodedPath, if_pos hval]
      constructor
      · intro h
        exact absurd h (by decide)
      · intro hc
        exfalso
        omega
    · exact decodedPath_empty_iff data hlen (by omega) (by omega)
  · intro hp
    have hp2 : decodedPath data = "" := hp
    have hval : ¬ (data.getD 0x53 0 = 0 ∨ 78 < data.getD 0x53 0) := by
      intro hbad
      rw [decodedPath, if_pos hbad] at hp2
      exact absurd hp2 (by decide)
    show decodedErrors data = _
    rw [decodedErrors, if_neg hval, List.nil_append]

/-- Witness for the amended C9 at the lone-NUL-path record. -/
theorem c9_empty_path_witness :
    (c9frag.path = "" ↔ (c9data.getD 0x53 0 = 1 ∧ c9data.getD 5 0 = 0))
    ∧ (c9frag.path = "" → c9frag.errors =
        (if c9data.getD 0 0 ≠ 0x00 ∧ c9data.getD 0 0 ≠ 0xff
         then [c9frag.path ++ msgFlagVal ++ hex2 (c9data.getD 0 0)] else [])) :=
  c9_empty_path imgA c9data c9frag (by decide) (by decide)

/-- C3 (amended): the byte-by-byte escape fallback triggers exactly when
some raw path byte is outside the ASCII range (at least `0x80`), i.e. when
the strict ASCII decode fails — not merely when a byte is unprintable.  In
the fallback, every byte below `0x20` or at least `0x80` becomes a
three-character lowercase percent escape, so a path containing raw byte
`0x01` alongside a non-ASCII byte decodes with the literal `%01` at that
position. -/
theorem c3_escape_fallback (path : String) (data : List Nat) (f : BackupFile)
    (pre suf : List Nat)
    (hok : decodeBackupFile path data = .ok f)
    (hpl : 1 ≤ data.getD 0x53 0 ∧ data.getD 0x53 0 ≤ 78)
    (hbad : ∃ b ∈ trimmedRaw data, 0x80 ≤ b)
    (hsplit : trimmedRaw data = pre ++ 0x01 :: suf) :
    f.path = joinAll (pre.map decodeByte) ++ "%01" ++ joinAll (suf.map decodeByte) := by
  rw [decodeBackupFile] at hok
  by_cases hlen : data.length < 0x54
  · rw [if_pos hlen] at hok
    exact absurd hok (by simp)
  · rw [if_neg hlen] at hok
    have hf := Except.ok.inj hok
    rw [← hf]
    show decodedPath data = _
    rw [decodedPath, if_neg (by omega)]
    have hall : ((trimmedRaw data).all (fun b => decide (b < 0x80))) = false := by
      obtain ⟨b, hbmem, hb⟩ := hbad
      simp only [List.all_eq_false]
      exact ⟨b, hbmem, by simpa using hb⟩
    rw [if_neg (by rw [hall]; exact Bool.false_ne_true)]
    rw [hsplit, List.map_append, List.map_cons, joinAll_append, joinAll]
    rw [show decodeByte 0x01 = "%01" from by decide]
    rw [String.append_assoc]

/-- Witness for the amended C3 at a record whose path bytes are
`0x01 0xff`. -/
theorem c3_escape_fallback_witness :
    trimmedRaw c3bdata = [] ++ 0x01 :: [0xff] ∧
    c3bfrag.path = joinAll (([] : List Nat).map decodeByte) ++ "%01" ++
      joinAll ([0xff].map decodeByte) :=
  ⟨by decide, c3_escape_fallback imgA c3bdata c3bfrag [] [0xff] (by decide) (by decide)
    (by decide) (by decide)⟩
